import Mathlib

/-
Verification of the tuple_join crate (src/src/lib.rs): a type-level tuple
concatenation library.  The crate's macro `tuple_join!` / `tuple_join_y!`
emits one `Join` impl per arity pair (L, R) with 0 <= L, R <= 13; each impl's
`join` destructures both operands and rebuilds the concatenation, and `split`
destructures the concatenation back into the two operands.  `Append::push`
and `Append::pop` are derived from `Join` with a singleton right operand, and
`Appended` / `Joined` delegate to `Append::pop` / `Join::split`.

Shallow embedding: a tuple value is a list of typed elements.  An element is
a dependent pair of a type and a value of that type, so per-position element
types are part of the data, matching the heterogeneity of Rust tuples.  The
macro recursion is modelled directly on the identifier lists it walks, so the
emitted table of instances is a computable list.
-/

set_option maxRecDepth 4000

namespace TupleJoin

/-- One component of a tuple: its type together with its value.  Rust tuples
are heterogeneous, so each position carries its own type. -/
abbrev Elem : Type 1 := Σ α : Type, α

/-- A tuple value of arity n is a list of n typed elements. -/
abbrev Tuple : Type 1 := List Elem

/-- Value level of the emitted `Join::join` bodies.  The general arm
destructures `self` into its components and rebuilds the concatenation
(lib.rs lines 117-120); the arm with empty left operand returns `other`
(line 103); the arm with empty right operand returns `self` (line 73).
All three are list append on the element lists. -/
def join (l r : Tuple) : Tuple := l ++ r

/-- Value level of the emitted `Join::split` bodies: destructure the
combined tuple into its first L components and the remaining components
(lib.rs lines 121-123; identity arms lines 75-77 and 106-108).  L is the
arity of the left operand type, which in Rust is fixed by the impl. -/
def split (L : ℕ) (t : Tuple) : Tuple × Tuple := (t.take L, t.drop L)

/-- `Append::push` (lib.rs lines 26-28): `self.join((other,))`. -/
def push (t : Tuple) (e : Elem) : Tuple := join t [e]

/-- `Append::pop` (lib.rs lines 30-33): `let (a, (b,)) = Self::split(tuple);
(a, b)`.  The singleton pattern match is modelled by `head?`; in Rust the
types make it irrefutable. -/
def pop (L : ℕ) (t : Tuple) : Tuple × Option Elem :=
  ((split L t).1, (split L t).2.head?)

/-- `Joined::split` (lib.rs lines 60-64): delegates to `A::split`. -/
def Joined_split (L : ℕ) (t : Tuple) : Tuple × Tuple := split L t

/-- `Appended::pop` (lib.rs lines 54-58): delegates to `A::pop`. -/
def Appended_pop (L : ℕ) (t : Tuple) : Tuple × Option Elem := pop L t

/-- The `tuple_join_y!` macro (lib.rs lines 67-95), modelled on the
identifier lists it receives.  It returns the list of (left identifiers,
right identifiers) pairs for which an impl is emitted, in emission order:
with an empty right list it emits the `Join<()>` impl for the left tuple
(lines 68-79); otherwise it emits the impl for the full pair (lines 80-92)
and recurses with the right list's head removed (line 93). -/
def tuple_join_y : List Char → List Char → List (List Char × List Char)
  | xs, [] => [(xs, [])]
  | xs, y0 :: ys => (xs, y0 :: ys) :: tuple_join_y xs ys

/-- The `tuple_join!` macro (lib.rs lines 97-128).  With an empty left list
it emits the impl for `()` joined with the full right tuple, then invokes
`tuple_join_y!` on the right tail (lines 98-111).  With a nonempty left list
it emits the impl for the full pair, recurses with the left head removed and
the right list intact, and invokes `tuple_join_y!` with the left list intact
and the right head removed (lines 113-127).  No arm matches an empty right
identifier list, so that call would fail to expand: modelled as `none`. -/
def tuple_join : List Char → List Char → Option (List (List Char × List Char))
  | [], [] => none
  | [], y0 :: ys => some (([], y0 :: ys) :: tuple_join_y [] ys)
  | _ :: _, [] => none
  | x0 :: xs, y0 :: ys =>
      (tuple_join xs (y0 :: ys)).map
        (fun rest => (x0 :: xs, y0 :: ys) :: (rest ++ tuple_join_y (x0 :: xs) ys))

/-- The left identifier list of the crate's single macro invocation
(lib.rs line 132). -/
def leftAlphabet : List Char :=
  ['A', 'B', 'C', 'D', 'E', 'F', 'G', 'H', 'I', 'J', 'K', 'L', 'M']

/-- The right identifier list of the crate's single macro invocation
(lib.rs line 133). -/
def rightAlphabet : List Char :=
  ['N', 'O', 'P', 'Q', 'R', 'S', 'T', 'U', 'V', 'W', 'X', 'Y', 'Z']

/-- The table of emitted impls: the expansion of
`tuple_join!(A .. M, N .. Z)` (lib.rs lines 131-134). -/
def emitted : List (List Char × List Char) :=
  (tuple_join leftAlphabet rightAlphabet).getD []

/-- The arity pair (L, R) of each emitted impl. -/
def emittedArities : List (ℕ × ℕ) :=
  emitted.map (fun q => (q.1.length, q.2.length))

/-- A numeric element, for concrete scenarios. -/
def eNat (n : ℕ) : Elem := ⟨ℕ, n⟩

/-- A string element, for concrete scenarios. -/
def eStr (s : String) : Elem := ⟨String, s⟩

example : tuple_join [] ['N'] = some [([], ['N']), ([], [])] := by decide

example : (1, 1) ∈ emittedArities := by decide

example : emittedArities.length = 196 := by decide

theorem take_append_self {α : Type u} (l r : List α) : (l ++ r).take l.length = l := by
  induction l with
  | nil => rfl
  | cons x xs ih => simp [ih]

theorem drop_append_self {α : Type u} (l r : List α) : (l ++ r).drop l.length = r := by
  induction l with
  | nil => rfl
  | cons x xs ih => simp [ih]

theorem split_join_eq (l r : Tuple) : split l.length (join l r) = (l, r) := by
  simp [split, join, take_append_self, drop_append_self]

theorem join_split_eq (L : ℕ) (t : Tuple) :
    join (split L t).1 (split L t).2 = t := by
  simp [split, join]

theorem mem_emittedArities (i j : ℕ) :
    (i, j) ∈ emittedArities ↔ i ≤ 13 ∧ j ≤ 13 := by
  constructor
  · intro h
    have hall : ∀ p ∈ emittedArities, p.1 ≤ 13 ∧ p.2 ≤ 13 := by decide
    exact hall (i, j) h
  · rintro ⟨hi, hj⟩
    have hall : ∀ i < 14, ∀ j < 14, (i, j) ∈ emittedArities := by decide
    exact hall i (by omega) j (by omega)

/-- C1: for every emitted arity pair (L, R), join and split are mutual
inverses: split at L of join l r returns (l, r) for operands of arities
L and R, and join of the two halves of split at L returns the original
combined value of arity L + R. -/
theorem C1_join_split_mutual_inverses :
    (∀ l r : Tuple, (l.length, r.length) ∈ emittedArities →
      split l.length (join l r) = (l, r)) ∧
    (∀ (L R : ℕ) (t : Tuple), (L, R) ∈ emittedArities → t.length = L + R →
      join (split L t).1 (split L t).2 = t) := by
  constructor
  · intro l r _
    exact split_join_eq l r
  · intro L R t _ _
    exact join_split_eq L t

theorem C1_witness :
    split 1 (join [eNat 1] [eNat 2]) = ([eNat 1], [eNat 2]) ∧
    join (split 1 [eNat 1, eNat 2]).1 (split 1 [eNat 1, eNat 2]).2
      = [eNat 1, eNat 2] :=
  ⟨C1_join_split_mutual_inverses.1 [eNat 1] [eNat 2] (by decide),
   C1_join_split_mutual_inverses.2 1 1 [eNat 1, eNat 2] (by decide) (by decide)⟩

/-- C2: for every emitted arity pair, join concatenates left then right:
the output has arity L + R, the element (type and value together, since an
element is a type-value pair) at position k below L is the left operand's
element at k, and at position k at or above L it is the right operand's
element at k - L. -/
theorem C2_join_positional :
    ∀ l r : Tuple, (l.length, r.length) ∈ emittedArities →
      (join l r).length = l.length + r.length ∧
      (∀ k, k < l.length → (join l r)[k]? = l[k]?) ∧
      (∀ k, l.length ≤ k → (join l r)[k]? = r[k - l.length]?) := by
  intro l r _
  refine ⟨by simp [join], ?_, ?_⟩
  · intro k hk
    rw [join, List.getElem?_append, if_pos hk]
  · intro k hk
    rw [join, List.getElem?_append, if_neg (by omega)]

theorem C2_witness :
    (join [eNat 10] [eNat 20]).length = [eNat 10].length + [eNat 20].length ∧
    (join [eNat 10] [eNat 20])[0]? = [eNat 10][0]? ∧
    (join [eNat 10] [eNat 20])[1]?
      = [eNat 20][1 - [eNat 10].length]? :=
  ⟨(C2_join_positional [eNat 10] [eNat 20] (by decide)).1,
   (C2_join_positional [eNat 10] [eNat 20] (by decide)).2.1 0 (by decide),
   (C2_join_positional [eNat 10] [eNat 20] (by decide)).2.2 1 (by decide)⟩

/-- C3: the macro expansion emits exactly one instance per arity pair
(i, j) with 0 <= i <= 13 and 0 <= j <= 13 — no duplicates (the arity list
has no repeats) and no gaps (membership is exactly the 14 x 14 table) —
and every emitted instance's join follows the one positional scheme. -/
theorem C3_generator_coverage :
    emittedArities.Nodup ∧
    (∀ i j : ℕ, (i, j) ∈ emittedArities ↔ i ≤ 13 ∧ j ≤ 13) ∧
    (∀ q ∈ emitted, ∀ l r : Tuple,
      l.length = q.1.length → r.length = q.2.length →
      ∀ k, k < l.length + r.length →
        (join l r)[k]? =
          if k < l.length then l[k]? else r[k - l.length]?) := by
  refine ⟨by decide, mem_emittedArities, ?_⟩
  intro q _ l r _ _ k _
  rw [join, List.getElem?_append]

theorem C3_witness :
    emittedArities.Nodup ∧
    ((2, 3) ∈ emittedArities ↔ 2 ≤ 13 ∧ 3 ≤ 13) ∧
    (join [eNat 1] [eNat 2])[1]? =
      (if 1 < [eNat 1].length then [eNat 1][1]?
       else [eNat 2][1 - [eNat 1].length]?) :=
  ⟨C3_generator_coverage.1,
   C3_generator_coverage.2.1 2 3,
   C3_generator_coverage.2.2 (['M'], ['Z']) (by decide) [eNat 1] [eNat 2]
     (by decide) (by decide) 1 (by decide)⟩

/-- C4: zero-arity identity laws on every supported operand: joining with
the empty tuple on either side returns the other operand unchanged,
splitting at (L, 0) yields (t, empty), splitting at (0, R) yields
(empty, t), and the fully degenerate instance maps empty and empty to
empty. -/
theorem C4_identity_laws :
    ∀ l r t : Tuple, (l.length, 0) ∈ emittedArities →
      (0, r.length) ∈ emittedArities → (t.length, 0) ∈ emittedArities →
      join [] r = r ∧ join l [] = l ∧
      split t.length t = (t, []) ∧ split 0 t = ([], t) ∧
      join ([] : Tuple) [] = [] ∧ split 0 ([] : Tuple) = ([], []) := by
  intro l r t _ _ _
  refine ⟨rfl, by simp [join], ?_, rfl, rfl, rfl⟩
  simp [split]

theorem C4_witness :
    join [] [eNat 2] = [eNat 2] ∧ join [eNat 1] [] = [eNat 1] ∧
    split [eNat 3].length [eNat 3] = ([eNat 3], []) ∧
    split 0 [eNat 3] = ([], [eNat 3]) ∧
    join ([] : Tuple) [] = [] ∧ split 0 ([] : Tuple) = ([], []) :=
  C4_identity_laws [eNat 1] [eNat 2] [eNat 3] (by decide) (by decide) (by decide)

/-- C5: push is derived from join with a singleton right operand, and pop
inverts push: pop of push t e returns t together with e. -/
theorem C5_push_pop :
    ∀ (t : Tuple) (e : Elem), (t.length, 1) ∈ emittedArities →
      push t e = join t [e] ∧ pop t.length (push t e) = (t, some e) := by
  intro t e _
  refine ⟨rfl, ?_⟩
  simp [pop, push, split, join, take_append_self, drop_append_self]

theorem C5_witness :
    push [eNat 1, eNat 2, eNat 3] (eStr "hello")
      = join [eNat 1, eNat 2, eNat 3] [eStr "hello"] ∧
    pop [eNat 1, eNat 2, eNat 3].length (push [eNat 1, eNat 2, eNat 3] (eStr "hello"))
      = ([eNat 1, eNat 2, eNat 3], some (eStr "hello")) :=
  C5_push_pop [eNat 1, eNat 2, eNat 3] (eStr "hello") (by decide)

/-- C6: boundary at the per-operand maximum: the (13, 13) instance is
emitted, its combined output has arity 26, and the inverse, round-trip and
identity laws hold there; the cap is per operand, not on the combined
result. -/
theorem C6_boundary_max :
    (13, 13) ∈ emittedArities ∧
    (∀ l r : Tuple, l.length = 13 → r.length = 13 →
      (join l r).length = 26 ∧ split 13 (join l r) = (l, r) ∧
      join l [] = l ∧ join [] r = r) ∧
    (∀ t : Tuple, t.length = 26 → join (split 13 t).1 (split 13 t).2 = t) := by
  refine ⟨by decide, ?_, ?_⟩
  · intro l r hl hr
    refine ⟨by simp [join, hl, hr], ?_, by simp [join], rfl⟩
    have h := split_join_eq l r
    rwa [hl] at h
  · intro t _
    exact join_split_eq 13 t

theorem C6_witness :
    (13, 13) ∈ emittedArities ∧
    (join (List.map eNat (List.range 13)) (List.map eNat (List.range 26 |>.drop 13))).length = 26 ∧
    split 13 (join (List.map eNat (List.range 13)) (List.map eNat (List.range 26 |>.drop 13)))
      = (List.map eNat (List.range 13), List.map eNat (List.range 26 |>.drop 13)) ∧
    join (split 13 (List.map eNat (List.range 26))).1
        (split 13 (List.map eNat (List.range 26))).2
      = List.map eNat (List.range 26) :=
  ⟨C6_boundary_max.1,
   (C6_boundary_max.2.1 (List.map eNat (List.range 13))
      (List.map eNat (List.range 26 |>.drop 13)) (by decide) (by decide)).1,
   (C6_boundary_max.2.1 (List.map eNat (List.range 13))
      (List.map eNat (List.range 26 |>.drop 13)) (by decide) (by decide)).2.1,
   C6_boundary_max.2.2 (List.map eNat (List.range 26)) (by decide)⟩

/-- C7: the reverse-derivation layer delegates to the Join relation: its
single-argument split and pop coincide with the two-operand primitives and
perform the same positional decomposition, introducing no new algorithm. -/
theorem C7_reverse_derivation_equiv :
    ∀ (L : ℕ) (t : Tuple),
      Joined_split L t = split L t ∧ Appended_pop L t = pop L t ∧
      Joined_split L t = (t.take L, t.drop L) := by
  intro L t
  exact ⟨rfl, rfl, rfl⟩

/-- C8: the crate documentation's literal scenarios hold. -/
theorem C8_doc_examples :
    join [eNat 1, eNat 2] [eNat 3, eNat 4, eNat 5, eNat 6]
      = [eNat 1, eNat 2, eNat 3, eNat 4, eNat 5, eNat 6] ∧
    split 2 [eNat 1, eNat 2, eNat 3, eNat 4, eNat 5, eNat 6]
      = ([eNat 1, eNat 2], [eNat 3, eNat 4, eNat 5, eNat 6]) ∧
    push [eNat 1, eNat 2, eNat 3] (eStr "hello")
      = [eNat 1, eNat 2, eNat 3, eStr "hello"] ∧
    pop 2 [eStr "ferris", eStr "the", eStr "rustacean"]
      = ([eStr "ferris", eStr "the"], some (eStr "rustacean")) ∧
    join [] [eNat 1, eNat 2] = [eNat 1, eNat 2] ∧
    join [eNat 1, eNat 2] [] = [eNat 1, eNat 2] :=
  ⟨rfl, rfl, rfl, rfl, rfl, rfl⟩

/-- C9: no runtime failure surface: a relation exists exactly for the
emitted 14 x 14 arity table (anything beyond arity 13 has no instance, so
it is rejected before any value-level code runs), and on emitted instances
the operations are total and lossless: split returns exactly the two
operand arities and rejoins to the original (no truncation), and pop's
singleton pattern always matches. -/
theorem C9_no_runtime_failures :
    (∀ i j : ℕ, (i, j) ∈ emittedArities ↔ i ≤ 13 ∧ j ≤ 13) ∧
    (∀ (L R : ℕ) (t : Tuple), (L, R) ∈ emittedArities → t.length = L + R →
      (split L t).1.length = L ∧ (split L t).2.length = R ∧
      join (split L t).1 (split L t).2 = t) ∧
    (∀ (L : ℕ) (t : Tuple), (L, 1) ∈ emittedArities → t.length = L + 1 →
      ((pop L t).2).isSome = true) := by
  refine ⟨mem_emittedArities, ?_, ?_⟩
  · intro L R t _ ht
    refine ⟨?_, ?_, join_split_eq L t⟩
    · simp [split, ht]
    · simp [split, ht]
  · intro L t _ ht
    have hlen : ((split L t).2).length = 1 := by simp [split, ht]
    cases h2 : (split L t).2 with
    | nil => simp [h2] at hlen
    | cons a as => simp [pop, h2]

theorem C9_witness :
    ((5, 9) ∈ emittedArities ↔ 5 ≤ 13 ∧ 9 ≤ 13) ∧
    (split 1 [eNat 1, eNat 2]).1.length = 1 ∧
    (split 1 [eNat 1, eNat 2]).2.length = 1 ∧
    join (split 1 [eNat 1, eNat 2]).1 (split 1 [eNat 1, eNat 2]).2 = [eNat 1, eNat 2] ∧
    ((pop 1 [eNat 1, eNat 2]).2).isSome = true :=
  ⟨C9_no_runtime_failures.1 5 9,
   (C9_no_runtime_failures.2.1 1 1 [eNat 1, eNat 2] (by decide) (by decide)).1,
   (C9_no_runtime_failures.2.1 1 1 [eNat 1, eNat 2] (by decide) (by decide)).2.1,
   (C9_no_runtime_failures.2.1 1 1 [eNat 1, eNat 2] (by decide) (by decide)).2.2,
   C9_no_runtime_failures.2.2 1 [eNat 1, eNat 2] (by decide) (by decide)⟩

/-- C10: Append works down to the empty left operand because the (0, 1)
instance is emitted: pushing onto the empty tuple yields the singleton, and
popping a singleton against the empty left operand yields the empty tuple
and the element. -/
theorem C10_append_empty_left :
    ∀ e : Elem, (0, 1) ∈ emittedArities ∧
      push [] e = [e] ∧ pop 0 [e] = ([], some e) := by
  intro e
  exact ⟨by decide, rfl, rfl⟩

end TupleJoin
